import Mathlib

/-!
Verification of the obj2hmap / hmap2obj terrain converters.

The numeric model replaces IEEE single-precision floats by exact rationals:
float arithmetic on the values the tools handle is modelled by exact `ℚ`
arithmetic, the C `trunc` by truncation toward zero, and the unsigned
integer arithmetic of the source is made explicit where it can wrap
(`usub1`, `wsub64`, `u16cast`).  In `ℚ`, division by zero yields 0.
-/

/-- Truncation toward zero, the C `trunc` applied to a finite value. -/
def qtrunc (x : ℚ) : ℤ := if 0 ≤ x then ⌊x⌋ else ⌈x⌉

/-- `s - 1` in `uint32` arithmetic, as in `params.hmap_size[i] - 1`. -/
def usub1 (s : ℕ) : ℕ := (s + (2 ^ 32 - 1)) % 2 ^ 32

/-- `a - b` in `size_t` arithmetic (for `b ≤ 2^64`), as in
`xyz.size () - params.hmap_size[0]`. -/
def wsub64 (a b : ℕ) : ℕ := (a + (2 ^ 64 - b)) % 2 ^ 64

/-- A 3d float vector (the `vec3` of both tools), with exact rationals. -/
structure Vec3 where
  x : ℚ
  y : ℚ
  z : ℚ
deriving DecidableEq

/-- Indexing a `Vec3` as `v[i]`; reading past the end is undefined behaviour
in C++, the model returns 0 there. -/
def Vec3.nth (v : Vec3) : ℕ → ℚ
  | 0 => v.x
  | 1 => v.y
  | 2 => v.z
  | _ => 0

/-- The largest finite single-precision value, `numeric_limits<float>::max ()`,
as an exact rational. -/
def fltMax : ℚ := (2 ^ 24 - 1) * 2 ^ 104

/-- The smallest positive normalized single-precision value,
`numeric_limits<float>::min ()`, as an exact rational. -/
def fltMinPos : ℚ := 1 / 2 ^ 126

namespace obj2hmap

/-- The `uvec3` of obj2hmap: a 32-bit unsigned 3d vector. -/
structure UVec3 where
  x : ℕ
  y : ℕ
  z : ℕ
deriving DecidableEq

/-- Indexing a `UVec3` as `sz[i]` (`at (3)` would throw in C++; the model
returns 0 there). -/
def UVec3.nth (s : UVec3) : ℕ → ℕ
  | 0 => s.x
  | 1 => s.y
  | 2 => s.z
  | _ => 0

/-- The `bvec3` of obj2hmap: a boolean 3d vector. -/
structure BVec3 where
  x : Bool
  y : Bool
  z : Bool
deriving DecidableEq

/-- `obj2hmap::find_disp_axis`: index of the first set coordinate flag, 3
when none is set (`std::find` reaching the end iterator). -/
def find_disp_axis (b : BVec3) : ℕ :=
  if b.x then 0 else if b.y then 1 else if b.z then 2 else 3

/-- The bounding-box fold of `obj2hmap::read_obj`: starting from
`numeric_limits<float>::max ()` in every `blo` coordinate and
`numeric_limits<float>::min ()` (the smallest positive normalized float, not
the lowest float) in every `bhi` coordinate, take the per-axis min / max over
the parsed vertices in file order. -/
def read_obj_box (vs : List Vec3) : Vec3 × Vec3 :=
  vs.foldl
    (fun b v =>
      (⟨min b.1.x v.x, min b.1.y v.y, min b.1.z v.z⟩,
       ⟨max b.2.x v.x, max b.2.y v.y, max b.2.z v.z⟩))
    (⟨fltMax, fltMax, fltMax⟩, ⟨fltMinPos, fltMinPos, fltMinPos⟩)

/-- The per-axis scale factors of `obj2hmap::make_grid`:
`gridsz[i] = (hmap_size[i] - 1) / (bhi[i] - blo[i])`, then zeroed on the
displacement axis by `gridsz[i] *= !height_coord[i]`.  This is the finite
path of the computation only: when `bhi[i] - blo[i]` is zero the C++ float
quotient is ±inf (or NaN) and the zeroing multiplication yields NaN, not 0;
`gridszF` tracks that case, and `cellIndexF_eq_some` bridges the two when
every axis range is nonzero. -/
def gridsz (sz : UVec3) (hc : BVec3) (blo bhi : Vec3) : Vec3 :=
  ⟨(usub1 sz.x : ℚ) / (bhi.x - blo.x) * (if hc.x then 0 else 1),
   (usub1 sz.y : ℚ) / (bhi.y - blo.y) * (if hc.y then 0 else 1),
   (usub1 sz.z : ℚ) / (bhi.z - blo.z) * (if hc.z then 0 else 1)⟩

/-- The inner index loop of `obj2hmap::make_grid`, one step per axis: add
`trunc (p) * ndxmul` to the flat index and advance the multiplier by
`ndxmul * !height_coord[i] * hmap_size[i] + ndxmul * height_coord[i]`.
Each list entry carries `(p, height_coord[i], hmap_size[i])`. -/
def idxSteps : List (ℚ × Bool × ℕ) → ℤ → ℤ → ℤ
  | [], ndx, _ => ndx
  | (p, h, s) :: rest, ndx, ndxmul =>
    idxSteps rest (ndx + qtrunc p * ndxmul) (if h then ndxmul else ndxmul * s)

/-- The three per-axis inputs of the index loop for one point `v`:
`p = (xyz[beg][i] - blo[i]) * gridsz[i]` together with the axis flag and
dimension. -/
def axisData (sz : UVec3) (hc : BVec3) (blo bhi : Vec3) (v : Vec3) :
    List (ℚ × Bool × ℕ) :=
  [((v.x - blo.x) * (gridsz sz hc blo bhi).x, hc.x, sz.x),
   ((v.y - blo.y) * (gridsz sz hc blo bhi).y, hc.y, sz.y),
   ((v.z - blo.z) * (gridsz sz hc blo bhi).z, hc.z, sz.z)]

/-- The flat grid cell index `ndx` computed by `obj2hmap::make_grid` for one
point, as an integer (each per-axis `static_cast<size_t>` of a negative
truncated value is undefined behaviour in C++; the model keeps the signed
value). -/
def cellIndex (sz : UVec3) (hc : BVec3) (blo bhi : Vec3) (v : Vec3) : ℤ :=
  idxSteps (axisData sz hc blo bhi v) 0 1

/-- Single-precision division with finiteness tracked: a finite quotient
(modelled exactly in `ℚ`) when the divisor is nonzero, a non-finite value
(±inf for a nonzero dividend, NaN for `0 / 0`; not distinguished further)
when dividing by zero. -/
def fdiv (a b : ℚ) : Option ℚ := if b = 0 then none else some (a / b)

/-- Multiplication of a possibly non-finite float by a finite one: a
non-finite operand absorbs (`inf * 0 = NaN`, `inf * x = ±inf`,
`NaN * x = NaN`), a finite one multiplies exactly. -/
def fmulq (a : Option ℚ) (b : ℚ) : Option ℚ := a.map fun q => q * b

/-- The per-axis scale factors of `obj2hmap::make_grid` with float
finiteness tracked: `(hmap_size[i] - 1) / (bhi[i] - blo[i])` followed by the
zeroing `gridsz[i] *= !height_coord[i]`.  On a degenerate axis
(`bhi[i] = blo[i]`) the quotient is ±inf (or NaN) and remains non-finite
after the zeroing (`inf * 0 = NaN`). -/
def gridszF (sz : UVec3) (hc : BVec3) (blo bhi : Vec3) :
    Option ℚ × Option ℚ × Option ℚ :=
  (fmulq (fdiv (usub1 sz.x : ℚ) (bhi.x - blo.x)) (if hc.x then 0 else 1),
   fmulq (fdiv (usub1 sz.y : ℚ) (bhi.y - blo.y)) (if hc.y then 0 else 1),
   fmulq (fdiv (usub1 sz.z : ℚ) (bhi.z - blo.z)) (if hc.z then 0 else 1))

/-- The flat cell index of `obj2hmap::make_grid` with float finiteness
tracked: if any per-axis scale is non-finite, the truncated per-axis term is
non-finite too and its `static_cast<size_t>` is undefined behaviour — no
valid index exists (`none`).  When every scale is finite this coincides with
`cellIndex` (`cellIndexF_eq_some`). -/
def cellIndexF (sz : UVec3) (hc : BVec3) (blo bhi : Vec3) (v : Vec3) :
    Option ℤ :=
  match gridszF sz hc blo bhi with
  | (some gx, some gy, some gz) =>
    some (idxSteps [((v.x - blo.x) * gx, hc.x, sz.x),
                    ((v.y - blo.y) * gy, hc.y, sz.y),
                    ((v.z - blo.z) * gz, hc.z, sz.z)] 0 1)
  | _ => none

/-- Product of the dimensions of the non-displacement entries of an axis
list, the range of flat indices reachable by the index loop. -/
def stepProd : List (ℚ × Bool × ℕ) → ℤ
  | [] => 1
  | (_, h, s) :: rest => (if h then 1 else (s : ℤ)) * stepProd rest

/-- The grid length chosen by the resize lambda of `obj2hmap::make_grid`:
the product of the dimensions of the non-displacement axes. -/
def gridLen (sz : UVec3) (hc : BVec3) : ℕ :=
  [(sz.x, hc.x), (sz.y, hc.y), (sz.z, hc.z)].foldl
    (fun acc p => if p.2 then acc else acc * p.1) 1

/-- `obj2hmap::make_grid`: a zero-initialized dense grid over the
non-displacement axes, into which every point writes its displacement-axis
coordinate at its flat cell index (`grid.at (ndx) = xyz[beg][haxis]`,
overwriting in sequence order). -/
def make_grid (sz : UVec3) (hc : BVec3) (blo bhi : Vec3) (pts : List Vec3) :
    List ℚ :=
  pts.foldl
    (fun g v =>
      g.set (cellIndex sz hc blo bhi v).toNat (v.nth (find_disp_axis hc)))
    (List.replicate (gridLen sz hc) 0)

end obj2hmap

namespace hmap2obj

/-- The read loop of `hmap2obj::read_hmap`: while the running index is below
the grid size and a sample is available, store it in the grid and update the
running min / max. -/
def readLoop : List ℚ → ℕ → ℕ → ℕ → List ℕ → List ℚ × ℕ × ℕ
  | g, vmin, vmax, _, [] => (g, vmin, vmax)
  | g, vmin, vmax, i, p :: rest =>
    if i < g.length then
      readLoop (g.set i (p : ℚ)) (min vmin p) (max vmax p) (i + 1) rest
    else (g, vmin, vmax)

/-- `hmap2obj::read_hmap`: resize the grid to `hmap_size[0] * hmap_size[1]`
zero-filled cells, then copy unsigned 16-bit samples from the stream while
cells remain, tracking min / max from the sentinel initial values
`numeric_limits<uint32_t>::max ()` and `numeric_limits<uint32_t>::min ()`. -/
def read_hmap (szx szy : ℕ) (stream : List ℕ) : List ℚ × ℕ × ℕ :=
  readLoop (List.replicate (szx * szy) 0) (2 ^ 32 - 1) 0 0 stream

/-- `hmap2obj::make_xyz`: lift each grid cell at row-major index `i` to a 3d
point; the planar coordinates are the normalized column / row position, the
elevation is the sample normalized by the discovered min / max, and all three
are affinely remapped into the target box `[obj_blo, obj_bhi]`. -/
def make_xyz (szx szy : ℕ) (obj_blo obj_bhi : Vec3) (grid : List ℚ)
    (vmin vmax : ℕ) : List Vec3 :=
  (List.range grid.length).map fun i =>
    let p0 : ℚ := ((i % szx : ℕ) : ℚ) / ((szx : ℚ) - 1)
    let p2 : ℚ := ((i / szy : ℕ) : ℚ) / ((szy : ℚ) - 1)
    let p1 : ℚ := (grid.getD i 0 - (vmin : ℚ)) / ((vmax : ℚ) - (vmin : ℚ))
    ⟨obj_blo.x + p0 * (obj_bhi.x - obj_blo.x),
     obj_blo.y + p1 * (obj_bhi.y - obj_blo.y),
     obj_blo.z + p2 * (obj_bhi.z - obj_blo.z)⟩

/-- The face index triples written by `hmap2obj::dump_obj`: for each 1-based
row-major index `i` from 1 up to `xyz.size () - hmap_size[0]` (a `size_t`
subtraction) whose remainder modulo the row width is nonzero, the two
triangles `(i, i+1, i+szx)` and `(i+1, i+szx, i+szx+1)`. -/
def dump_obj_faces (szx npoints : ℕ) : List (ℕ × ℕ × ℕ) :=
  (List.range' 1 (wsub64 npoints szx)).flatMap fun i =>
    if i % szx ≠ 0 then
      [(i, i + 1, i + szx), (i + 1, i + szx, i + szx + 1)]
    else []

end hmap2obj

/-- The point list of the concrete 3x3 lifting scenario: grid `[0,...,8]`,
discovered min 0 and max 8, target box low `(-0.5, 0, -0.5)`,
high `(0.5, 1, 0.5)`. -/
def c6pts : List Vec3 :=
  hmap2obj.make_xyz 3 3 ⟨-(1/2), 0, -(1/2)⟩ ⟨1/2, 1, 1/2⟩
    [0, 1, 2, 3, 4, 5, 6, 7, 8] 0 8

/-- The grid, min and max read from the sample stream of the README's
`--absolute` example: a 2 x 2 tile whose samples span 1000 to 20000. -/
def c8read : List ℚ × ℕ × ℕ :=
  hmap2obj.read_hmap 2 2 [1000, 20000, 1000, 20000]

/-- The points lifted from that tile into the box low `(-0.5, 0, -0.5)`,
high `(0.5, 1, 0.5)`, exactly as `main` wires `read_hmap` into `make_xyz`
(no remap-range parameter exists to pass). -/
def c8pts : List Vec3 :=
  hmap2obj.make_xyz 2 2 ⟨-(1/2), 0, -(1/2)⟩ ⟨1/2, 1, 1/2⟩
    c8read.1 c8read.2.1 c8read.2.2

/-- C6 counterexample: in the 3x3 lifting scenario the corner point of cell 2
is `(0.5, 0.25, -0.5)`: its elevation coordinate is neither 0 nor 1, so the
corner points are not the claimed four combinations of
`(±0.5, {0 or 1}, ±0.5)`. -/
theorem C6_counterexample :
    (c6pts.getD 2 ⟨0, 0, 0⟩).x = 1/2 ∧ (c6pts.getD 2 ⟨0, 0, 0⟩).z = -(1/2) ∧
    ¬ ((c6pts.getD 2 ⟨0, 0, 0⟩).y = 0 ∨ (c6pts.getD 2 ⟨0, 0, 0⟩).y = 1) := by
  refine ⟨?_, ?_, ?_⟩ <;>
    norm_num [c6pts, hmap2obj.make_xyz, List.getD_eq_getElem?_getD,
      List.getElem?_map, List.getElem?_range, List.getD]

/-- C6 amended: lifting the 3x3 grid `[0,...,8]` with min 0, max 8 into the
box low `(-0.5, 0, -0.5)`, high `(0.5, 1, 0.5)` produces exactly 9 points;
the center point (index 4) is exactly `(0, 0.5, 0)` and the corner points
(indices 0, 2, 6, 8) are `(-0.5, 0, -0.5)`, `(0.5, 0.25, -0.5)`,
`(-0.5, 0.75, 0.5)` and `(0.5, 1, 0.5)`: planar coordinates at the four
`(±0.5, ·, ±0.5)` combinations, elevation equal to corner sample / 8, which
lies in {0, 1} only for the corners holding samples 0 and 8. -/
theorem C6_amended :
    c6pts.length = 9 ∧
    c6pts.getD 4 ⟨0, 0, 0⟩ = ⟨0, 1/2, 0⟩ ∧
    c6pts.getD 0 ⟨0, 0, 0⟩ = ⟨-(1/2), 0, -(1/2)⟩ ∧
    c6pts.getD 2 ⟨0, 0, 0⟩ = ⟨1/2, 1/4, -(1/2)⟩ ∧
    c6pts.getD 6 ⟨0, 0, 0⟩ = ⟨-(1/2), 3/4, 1/2⟩ ∧
    c6pts.getD 8 ⟨0, 0, 0⟩ = ⟨1/2, 1, 1/2⟩ := by
  refine ⟨by simp [c6pts, hmap2obj.make_xyz], ?_, ?_, ?_, ?_, ?_⟩ <;>
    norm_num [c6pts, hmap2obj.make_xyz, List.getD_eq_getElem?_getD,
      List.getElem?_map, List.getElem?_range, List.getD, Vec3.mk.injEq]

namespace hmap2obj

end hmap2obj

theorem wsub64_mul (szx szy : ℕ) (h2 : 1 ≤ szy) (hx : szx < 2 ^ 32)
    (hy : szy < 2 ^ 32) : wsub64 (szx * szy) szx = szx * (szy - 1) := by
  obtain ⟨m, rfl⟩ : ∃ m, szy = m + 1 := ⟨szy - 1, by omega⟩
  have hm : szx * m < 2 ^ 64 := by
    have h1 : szx * m ≤ (2 ^ 32 - 1) * (2 ^ 32 - 1) :=
      Nat.mul_le_mul (by omega) (by omega)
    omega
  unfold wsub64
  have hx1 : szx * (m + 1) = szx * m + szx := by ring
  rw [hx1, show szx * m + szx + (2 ^ 64 - szx) = szx * m + 2 ^ 64 by omega,
    Nat.add_mod_right, Nat.mod_eq_of_lt hm]
  simp

theorem dump_obj_faces_mem (szx szy : ℕ) (t : ℕ × ℕ × ℕ) (h2 : 1 ≤ szy)
    (hx : szx < 2 ^ 32) (hy : szy < 2 ^ 32) :
    t ∈ hmap2obj.dump_obj_faces szx (szx * szy) ↔
      ∃ i, 1 ≤ i ∧ i ≤ szx * (szy - 1) ∧ i % szx ≠ 0 ∧
        (t = (i, i + 1, i + szx) ∨ t = (i + 1, i + szx, i + szx + 1)) := by
  unfold hmap2obj.dump_obj_faces
  rw [wsub64_mul szx szy h2 hx hy, List.mem_flatMap]
  constructor
  · rintro ⟨i, hi, ht⟩
    rw [List.mem_range'] at hi
    obtain ⟨j, hj, rfl⟩ := hi
    by_cases hmod : (1 + 1 * j) % szx = 0
    · rw [if_neg (by simpa using hmod)] at ht
      cases ht
    · rw [if_pos (by simpa using hmod)] at ht
      refine ⟨1 + 1 * j, by omega, by omega, hmod, ?_⟩
      simpa using ht
  · rintro ⟨i, h1i, h2i, hmod, hor⟩
    refine ⟨i, ?_, ?_⟩
    · rw [List.mem_range']
      exact ⟨i - 1, by omega, by omega⟩
    · rw [if_pos (by simpa using hmod)]
      simpa using hor

/-- C7: the faces `hmap2obj::dump_obj` writes for a `szx * szy` point grid are
exactly, for each 1-based row-major index `i` up to `szx * (szy - 1)` with
`i mod szx` nonzero, the two triangles `(i, i+1, i+szx)` and
`(i+1, i+szx, i+szx+1)`, and no others; in particular a 2 x 2 grid yields
exactly the 2 faces `(1, 2, 3)` and `(2, 3, 4)`. -/
theorem C7_dump_obj_faces (szx szy : ℕ) (_h1 : 1 ≤ szx) (h2 : 1 ≤ szy)
    (hx : szx < 2 ^ 32) (hy : szy < 2 ^ 32) :
    (∀ t : ℕ × ℕ × ℕ, t ∈ hmap2obj.dump_obj_faces szx (szx * szy) ↔
      ∃ i, 1 ≤ i ∧ i ≤ szx * (szy - 1) ∧ i % szx ≠ 0 ∧
        (t = (i, i + 1, i + szx) ∨ t = (i + 1, i + szx, i + szx + 1))) ∧
    hmap2obj.dump_obj_faces 2 (2 * 2) = [(1, 2, 3), (2, 3, 4)] := by
  refine ⟨fun t => dump_obj_faces_mem szx szy t h2 hx hy, by decide⟩

/-- C7 witness: on the 2 x 2 grid, `(1, 2, 3)` is a face (given by quad index
`i = 1`) and the full face list is exactly the expected two triangles. -/
theorem C7_dump_obj_faces_witness :
    (1, 2, 3) ∈ hmap2obj.dump_obj_faces 2 (2 * 2) ∧
    hmap2obj.dump_obj_faces 2 (2 * 2) = [(1, 2, 3), (2, 3, 4)] := by
  have h := C7_dump_obj_faces 2 2 (by norm_num) (by norm_num) (by norm_num)
    (by norm_num)
  exact ⟨(h.1 (1, 2, 3)).2 ⟨1, by decide⟩, h.2⟩

/-- C10: every vertex index appearing in a face emitted by
`hmap2obj::dump_obj` for a grid of `szx * szy` points is at least 1 and at
most `szx * szy`, so faces reference only vertices that were emitted. -/
theorem C10_face_indices (szx szy : ℕ) (h1 : 1 ≤ szx) (h2 : 1 ≤ szy)
    (hx : szx < 2 ^ 32) (hy : szy < 2 ^ 32) :
    ∀ t ∈ hmap2obj.dump_obj_faces szx (szx * szy),
      (1 ≤ t.1 ∧ t.1 ≤ szx * szy) ∧ (1 ≤ t.2.1 ∧ t.2.1 ≤ szx * szy) ∧
      (1 ≤ t.2.2 ∧ t.2.2 ≤ szx * szy) := by
  intro t ht
  rw [dump_obj_faces_mem szx szy t h2 hx hy] at ht
  obtain ⟨i, h1i, h2i, hmod, hor⟩ := ht
  have hne : i ≠ szx * (szy - 1) := by
    intro he
    apply hmod
    rw [he]
    exact Nat.mul_mod_right ..
  have hsum : szx * (szy - 1) + szx = szx * szy := by
    obtain ⟨m, rfl⟩ : ∃ m, szy = m + 1 := ⟨szy - 1, by omega⟩
    simp [Nat.mul_succ]
  rcases hor with h | h <;> subst h <;> dsimp only <;>
    exact ⟨⟨by omega, by omega⟩, ⟨by omega, by omega⟩, ⟨by omega, by omega⟩⟩

/-- C10 witness: on the 2 x 2 grid the face `(2, 3, 4)` references only
vertex indices between 1 and 4. -/
theorem C10_face_indices_witness :
    (1 ≤ 2 ∧ 2 ≤ 2 * 2) ∧ (1 ≤ 3 ∧ 3 ≤ 2 * 2) ∧ (1 ≤ 4 ∧ 4 ≤ 2 * 2) := by
  exact C10_face_indices 2 2 (by norm_num) (by norm_num) (by norm_num)
    (by norm_num) (2, 3, 4) (by decide)

theorem affine_remap_bounds (lo hi t : ℚ) (h : lo < hi) (h0 : 0 ≤ t)
    (h1 : t ≤ 1) : lo ≤ lo + t * (hi - lo) ∧ lo + t * (hi - lo) ≤ hi := by
  constructor <;> nlinarith

/-- C9: for a square grid (`n = dimX = dimY >= 2`) whose samples all lie
between the discovered min and max (`vmin < vmax`), every point produced by
`hmap2obj::make_xyz` lies componentwise inside the validated target box. -/
theorem C9_make_xyz_in_box (n : ℕ) (obj_blo obj_bhi : Vec3) (grid : List ℚ)
    (vmin vmax : ℕ) (hn : 2 ≤ n) (hlen : grid.length = n * n)
    (hmm : vmin < vmax)
    (hgrid : ∀ q ∈ grid, (vmin : ℚ) ≤ q ∧ q ≤ (vmax : ℚ))
    (hx : obj_blo.x < obj_bhi.x) (hy : obj_blo.y < obj_bhi.y)
    (hz : obj_blo.z < obj_bhi.z) :
    ∀ p ∈ hmap2obj.make_xyz n n obj_blo obj_bhi grid vmin vmax,
      (obj_blo.x ≤ p.x ∧ p.x ≤ obj_bhi.x) ∧
      (obj_blo.y ≤ p.y ∧ p.y ≤ obj_bhi.y) ∧
      (obj_blo.z ≤ p.z ∧ p.z ≤ obj_bhi.z) := by
  intro p hp
  unfold hmap2obj.make_xyz at hp
  rw [List.mem_map] at hp
  obtain ⟨i, hi, rfl⟩ := hp
  rw [List.mem_range, hlen] at hi
  have hn1 : (0 : ℚ) < (n : ℚ) - 1 := by
    have : (2 : ℚ) ≤ (n : ℚ) := by exact_mod_cast hn
    linarith
  have hcast : ((n - 1 : ℕ) : ℚ) = (n : ℚ) - 1 := by
    have : 1 ≤ n := by omega
    push_cast [this]
    ring
  have ht0 : 0 ≤ ((i % n : ℕ) : ℚ) / ((n : ℚ) - 1) ∧
      ((i % n : ℕ) : ℚ) / ((n : ℚ) - 1) ≤ 1 := by
    constructor
    · exact div_nonneg (by positivity) (le_of_lt hn1)
    · rw [div_le_one hn1, ← hcast]
      exact_mod_cast Nat.le_of_lt_succ
        (by simpa [Nat.succ_pred_eq_of_pos] using
          Nat.lt_of_lt_of_le (Nat.mod_lt i (by omega)) (by omega))
  have ht2 : 0 ≤ ((i / n : ℕ) : ℚ) / ((n : ℚ) - 1) ∧
      ((i / n : ℕ) : ℚ) / ((n : ℚ) - 1) ≤ 1 := by
    have hdiv : i / n < n := Nat.div_lt_of_lt_mul hi
    constructor
    · exact div_nonneg (by positivity) (le_of_lt hn1)
    · rw [div_le_one hn1, ← hcast]
      exact_mod_cast Nat.le_of_lt_succ (by omega)
  have hmem : grid.getD i 0 ∈ grid := by
    rw [List.getD_eq_getElem grid 0 (by omega)]
    exact List.getElem_mem _
  have hq := hgrid _ hmem
  have hvm : (0 : ℚ) < (vmax : ℚ) - (vmin : ℚ) := by
    have : (vmin : ℚ) < (vmax : ℚ) := by exact_mod_cast hmm
    linarith
  have ht1 : 0 ≤ (grid.getD i 0 - (vmin : ℚ)) / ((vmax : ℚ) - (vmin : ℚ)) ∧
      (grid.getD i 0 - (vmin : ℚ)) / ((vmax : ℚ) - (vmin : ℚ)) ≤ 1 := by
    constructor
    · exact div_nonneg (by linarith [hq.1]) (le_of_lt hvm)
    · rw [div_le_one hvm]
      linarith [hq.2]
  dsimp only
  exact ⟨affine_remap_bounds _ _ _ hx ht0.1 ht0.2,
    affine_remap_bounds _ _ _ hy ht1.1 ht1.2,
    affine_remap_bounds _ _ _ hz ht2.1 ht2.2⟩

/-- C9 witness: the first point of the lifting of the 2 x 2 grid `[1,2,2,1]`
(discovered min 1, max 2) into the unit box is inside that box. -/
theorem C9_make_xyz_in_box_witness :
    ((0 : ℚ) ≤ (Vec3.mk 0 0 0).x ∧ (Vec3.mk 0 0 0).x ≤ 1) ∧
    ((0 : ℚ) ≤ (Vec3.mk 0 0 0).y ∧ (Vec3.mk 0 0 0).y ≤ 1) ∧
    ((0 : ℚ) ≤ (Vec3.mk 0 0 0).z ∧ (Vec3.mk 0 0 0).z ≤ 1) := by
  have hmem : (⟨0, 0, 0⟩ : Vec3) ∈
      hmap2obj.make_xyz 2 2 ⟨0, 0, 0⟩ ⟨1, 1, 1⟩ [1, 2, 2, 1] 1 2 := by
    unfold hmap2obj.make_xyz
    rw [List.mem_map]
    refine ⟨0, by simp, ?_⟩
    norm_num [List.getD, Vec3.mk.injEq]
  exact C9_make_xyz_in_box 2 ⟨0, 0, 0⟩ ⟨1, 1, 1⟩ [1, 2, 2, 1] 1 2
    (by norm_num) (by norm_num) (by norm_num)
    (by intro q hq; fin_cases hq <;> norm_num)
    (by norm_num) (by norm_num) (by norm_num) ⟨0, 0, 0⟩ hmem

/-- C3: the bounding-box fold of `obj2hmap::read_obj` initializes the high
corner with `numeric_limits<float>::min ()`, the smallest positive normalized
float, instead of the lowest float; on the single all-negative vertex
`(-1, -1, -1)` the low corner is correct but every high-corner coordinate
remains `2^-126` instead of the per-axis maximum `-1`. -/
theorem C3_read_obj_box_bug :
    (obj2hmap.read_obj_box [⟨-1, -1, -1⟩]).1 = ⟨-1, -1, -1⟩ ∧
    (obj2hmap.read_obj_box [⟨-1, -1, -1⟩]).2 =
      ⟨fltMinPos, fltMinPos, fltMinPos⟩ ∧
    fltMinPos ≠ (-1 : ℚ) := by
  refine ⟨?_, ?_, by norm_num [fltMinPos]⟩ <;>
    norm_num [obj2hmap.read_obj_box, fltMax, fltMinPos, Vec3.mk.injEq,
      min_def, max_def]

/-- C8: the grid-to-mesh tool has no remap-range handling: `param_type` has
no such field, `parse_cli` silently drops a `--absolute` token, and
`make_xyz` always normalizes by the discovered min / max.  On the README's
example tile (samples 1000 and 20000) the discovered range maps sample 1000
to the bottom of the target Y range (elevation 0) and 20000 to the top
(elevation 1), instead of the documented absolute mapping `1000 / 65535` and
`20000 / 65535`. -/
theorem C8_no_remap_range :
    c8read.2.1 = 1000 ∧ c8read.2.2 = 20000 ∧
    (c8pts.getD 0 ⟨0, 0, 0⟩).y = 0 ∧ (c8pts.getD 1 ⟨0, 0, 0⟩).y = 1 ∧
    (0 : ℚ) ≠ 1000 / 65535 ∧ (1 : ℚ) ≠ 20000 / 65535 := by
  have hread : c8read = ([1000, 20000, 1000, 20000], 1000, 20000) := by
    norm_num [c8read, hmap2obj.read_hmap, hmap2obj.readLoop, List.replicate]
  refine ⟨by rw [hread], by rw [hread], ?_, ?_, by norm_num, by norm_num⟩ <;>
    · rw [show c8pts = hmap2obj.make_xyz 2 2 ⟨-(1/2), 0, -(1/2)⟩ ⟨1/2, 1, 1/2⟩
          [1000, 20000, 1000, 20000] 1000 20000 by rw [c8pts, hread]]
      norm_num [hmap2obj.make_xyz, List.getD_eq_getElem?_getD,
        List.getElem?_map, List.getElem?_range, List.getD]

theorem usub1_eq (s : ℕ) (h1 : 1 ≤ s) (h2 : s < 2 ^ 32) : usub1 s = s - 1 := by
  unfold usub1
  omega

theorem qtrunc_zero : qtrunc 0 = 0 := by
  simp [qtrunc]

theorem qtrunc_nonneg_eq_floor (x : ℚ) (h : 0 ≤ x) : qtrunc x = ⌊x⌋ := by
  simp [qtrunc, h]
theorem idxSteps_shift (L : List (ℚ × Bool × ℕ)) :
    ∀ n m : ℤ, obj2hmap.idxSteps L n m = n + m * obj2hmap.idxSteps L 0 1 := by
  induction L with
  | nil => intro n m; simp [obj2hmap.idxSteps]
  | cons a rest ih =>
    intro n m
    obtain ⟨p, h, s⟩ := a
    have hstep : obj2hmap.idxSteps ((p, h, s) :: rest) n m =
        obj2hmap.idxSteps rest (n + qtrunc p * m) (if h then m else m * s) := rfl
    have hstep1 : obj2hmap.idxSteps ((p, h, s) :: rest) 0 1 =
        obj2hmap.idxSteps rest (0 + qtrunc p * 1) (if h then 1 else 1 * s) := rfl
    rw [hstep, hstep1, ih (n + qtrunc p * m), ih (0 + qtrunc p * 1)]
    cases h <;> simp <;> ring

theorem idxSteps_bounds (L : List (ℚ × Bool × ℕ))
    (hd : ∀ x ∈ L, (x.2.1 = true → qtrunc x.1 = 0) ∧
      (x.2.1 = false → 0 ≤ qtrunc x.1 ∧ qtrunc x.1 < (x.2.2 : ℤ))) :
    0 < obj2hmap.stepProd L ∧ 0 ≤ obj2hmap.idxSteps L 0 1 ∧
    obj2hmap.idxSteps L 0 1 < obj2hmap.stepProd L := by
  induction L with
  | nil =>
    refine ⟨?_, ?_, ?_⟩ <;> simp [obj2hmap.stepProd, obj2hmap.idxSteps]
  | cons a rest ih =>
    obtain ⟨p, h, s⟩ := a
    have hx := hd (p, h, s) (List.mem_cons_self ..)
    dsimp only at hx
    obtain ⟨hP, hI0, hIlt⟩ := ih fun x hmem => hd x (List.mem_cons_of_mem _ hmem)
    cases h
    · obtain ⟨hc0, hcs⟩ := hx.2 rfl
      have hshift : obj2hmap.idxSteps ((p, false, s) :: rest) 0 1 =
          qtrunc p + (s : ℤ) * obj2hmap.idxSteps rest 0 1 := by
        have h0 : obj2hmap.idxSteps ((p, false, s) :: rest) 0 1 =
            obj2hmap.idxSteps rest (0 + qtrunc p * 1) (1 * (s : ℤ)) := rfl
        rw [h0, idxSteps_shift]
        ring
      have hprod : obj2hmap.stepProd ((p, false, s) :: rest) =
          (s : ℤ) * obj2hmap.stepProd rest := rfl
      rw [hshift, hprod]
      refine ⟨mul_pos (by omega) hP, ?_, ?_⟩
      · exact add_nonneg hc0 (mul_nonneg (by omega) hI0)
      · have h1 : (s : ℤ) * obj2hmap.idxSteps rest 0 1 ≤
            (s : ℤ) * (obj2hmap.stepProd rest - 1) :=
          mul_le_mul_of_nonneg_left (by omega) (by omega)
        have h2 : (s : ℤ) * (obj2hmap.stepProd rest - 1) =
            (s : ℤ) * obj2hmap.stepProd rest - (s : ℤ) := by ring
        omega
    · have hshift : obj2hmap.idxSteps ((p, true, s) :: rest) 0 1 =
          qtrunc p + obj2hmap.idxSteps rest 0 1 := by
        have h0 : obj2hmap.idxSteps ((p, true, s) :: rest) 0 1 =
            obj2hmap.idxSteps rest (0 + qtrunc p * 1) 1 := rfl
        rw [h0, idxSteps_shift]
        ring
      have hprod : obj2hmap.stepProd ((p, true, s) :: rest) =
          1 * obj2hmap.stepProd rest := rfl
      rw [hshift, hprod, hx.1 rfl, one_mul, zero_add]
      exact ⟨hP, hI0, hIlt⟩

theorem qtrunc_scale_bounds (lo hi v : ℚ) (s : ℕ) (hlo : lo ≤ v) (hv : v ≤ hi)
    (hlt : lo < hi) (hs1 : 1 ≤ s) (hs : s < 2 ^ 32) :
    0 ≤ qtrunc ((v - lo) * ((usub1 s : ℚ) / (hi - lo) * 1)) ∧
    qtrunc ((v - lo) * ((usub1 s : ℚ) / (hi - lo) * 1)) < (s : ℤ) := by
  rw [usub1_eq s hs1 hs]
  have hd : (0 : ℚ) < hi - lo := by linarith
  have hcast : ((s - 1 : ℕ) : ℚ) = (s : ℚ) - 1 := by
    push_cast [hs1]
    ring
  have hp0 : 0 ≤ (v - lo) * (((s - 1 : ℕ) : ℚ) / (hi - lo) * 1) := by
    apply mul_nonneg (by linarith)
    rw [mul_one]
    exact div_nonneg (by positivity) (le_of_lt hd)
  have hple : (v - lo) * (((s - 1 : ℕ) : ℚ) / (hi - lo) * 1) ≤ (s : ℚ) - 1 := by
    rw [mul_one, hcast]
    have h1 : (v - lo) * (((s : ℚ) - 1) / (hi - lo)) ≤
        (hi - lo) * (((s : ℚ) - 1) / (hi - lo)) := by
      apply mul_le_mul_of_nonneg_right (by linarith)
      apply div_nonneg _ (le_of_lt hd)
      have : (1 : ℚ) ≤ (s : ℚ) := by exact_mod_cast hs1
      linarith
    have h2 : (hi - lo) * (((s : ℚ) - 1) / (hi - lo)) = (s : ℚ) - 1 := by
      field_simp
    linarith
  rw [qtrunc_nonneg_eq_floor _ hp0]
  constructor
  · exact Int.floor_nonneg.2 hp0
  · have h3 : (⌊(v - lo) * (((s - 1 : ℕ) : ℚ) / (hi - lo) * 1)⌋ : ℚ) ≤
        (s : ℚ) - 1 := le_trans (Int.floor_le _) hple
    have h4 : ⌊(v - lo) * (((s - 1 : ℕ) : ℚ) / (hi - lo) * 1)⌋ ≤
        (s : ℤ) - 1 := by exact_mod_cast h3
    omega

theorem cellIndex_bounds_aux (sz : obj2hmap.UVec3) (hc : obj2hmap.BVec3)
    (blo bhi : Vec3) (v : Vec3)
    (hx : hc.x = false →
      blo.x ≤ v.x ∧ v.x ≤ bhi.x ∧ blo.x < bhi.x ∧ 1 ≤ sz.x ∧ sz.x < 2 ^ 32)
    (hy : hc.y = false →
      blo.y ≤ v.y ∧ v.y ≤ bhi.y ∧ blo.y < bhi.y ∧ 1 ≤ sz.y ∧ sz.y < 2 ^ 32)
    (hz : hc.z = false →
      blo.z ≤ v.z ∧ v.z ≤ bhi.z ∧ blo.z < bhi.z ∧ 1 ≤ sz.z ∧ sz.z < 2 ^ 32) :
    0 ≤ obj2hmap.cellIndex sz hc blo bhi v ∧
    obj2hmap.cellIndex sz hc blo bhi v < (obj2hmap.gridLen sz hc : ℤ) := by
  have hlen : (obj2hmap.gridLen sz hc : ℤ) =
      obj2hmap.stepProd (obj2hmap.axisData sz hc blo bhi v) := by
    cases hcx : hc.x <;> cases hcy : hc.y <;> cases hcz : hc.z <;>
      simp [obj2hmap.gridLen, obj2hmap.axisData, obj2hmap.stepProd,
        hcx, hcy, hcz, Nat.cast_mul] <;> ring
  have hb := idxSteps_bounds (obj2hmap.axisData sz hc blo bhi v) ?_
  · exact ⟨hb.2.1, by rw [hlen]; exact hb.2.2⟩
  · intro t ht
    simp only [obj2hmap.axisData, List.mem_cons, List.mem_singleton,
      List.not_mem_nil, or_false] at ht
    rcases ht with rfl | rfl | rfl
    · constructor
      · intro hcx
        dsimp only at hcx
        simp [obj2hmap.gridsz, hcx, qtrunc_zero]
      · intro hcx
        dsimp only at hcx
        obtain ⟨h1, h2, h3, h4, h5⟩ := hx hcx
        simpa [obj2hmap.gridsz, hcx] using
          qtrunc_scale_bounds blo.x bhi.x v.x sz.x h1 h2 h3 h4 h5
    · constructor
      · intro hcy
        dsimp only at hcy
        simp [obj2hmap.gridsz, hcy, qtrunc_zero]
      · intro hcy
        dsimp only at hcy
        obtain ⟨h1, h2, h3, h4, h5⟩ := hy hcy
        simpa [obj2hmap.gridsz, hcy] using
          qtrunc_scale_bounds blo.y bhi.y v.y sz.y h1 h2 h3 h4 h5
    · constructor
      · intro hcz
        dsimp only at hcz
        simp [obj2hmap.gridsz, hcz, qtrunc_zero]
      · intro hcz
        dsimp only at hcz
        obtain ⟨h1, h2, h3, h4, h5⟩ := hz hcz
        simpa [obj2hmap.gridsz, hcz] using
          qtrunc_scale_bounds blo.z bhi.z v.z sz.z h1 h2 h3 h4 h5

theorem cellIndexF_eq_some (sz : obj2hmap.UVec3) (hc : obj2hmap.BVec3)
    (blo bhi : Vec3) (v : Vec3) (hx : bhi.x - blo.x ≠ 0)
    (hy : bhi.y - blo.y ≠ 0) (hz : bhi.z - blo.z ≠ 0) :
    obj2hmap.cellIndexF sz hc blo bhi v =
      some (obj2hmap.cellIndex sz hc blo bhi v) := by
  simp [obj2hmap.cellIndexF, obj2hmap.gridszF, obj2hmap.fdiv, obj2hmap.fmulq,
    hx, hy, hz, obj2hmap.cellIndex, obj2hmap.axisData, obj2hmap.gridsz]

/-- C2 counterexample: a flat mesh on the displacement axis is reachable and
meets every condition the claim places on the non-displacement axes
(coordinates inside the box, `low < high`, dimensions in `[1, 2^32)` there),
yet with `bhi.y = blo.y = 1` the Y scale factor is `(hmap_size[1]-1)/0 =
inf`, its zeroing `inf * 0 = NaN`, and the `static_cast<size_t>` of the
truncated term is undefined behaviour: no flat index in `[0, product)` is
computed (`cellIndexF = none`). -/
theorem C2_counterexample :
    obj2hmap.cellIndexF ⟨2, 5, 3⟩ ⟨false, true, false⟩ ⟨0, 1, 0⟩ ⟨1, 1, 1⟩
      ⟨1/2, 1, 1/2⟩ = none ∧
    ((0 : ℚ) ≤ 1/2 ∧ (1/2 : ℚ) ≤ 1 ∧ (0 : ℚ) < 1 ∧
      (1 : ℕ) ≤ 2 ∧ (2 : ℕ) < 2 ^ 32) ∧
    ((0 : ℚ) ≤ 1/2 ∧ (1/2 : ℚ) ≤ 1 ∧ (0 : ℚ) < 1 ∧
      (1 : ℕ) ≤ 3 ∧ (3 : ℕ) < 2 ^ 32) := by
  refine ⟨?_, by norm_num, by norm_num⟩
  norm_num [obj2hmap.cellIndexF, obj2hmap.gridszF, obj2hmap.fdiv,
    obj2hmap.fmulq]

/-- C2 amended: for every point whose coordinate on each non-displacement
axis lies within `[blo, bhi]`, with `blo < bhi` and a dimension in
`[1, 2^32)` on those axes, and with a nonzero range also on the displacement
axes (a zero-width displacement range makes the float scale inf and its
zeroing NaN, so the cast of the truncated term is undefined), the flat cell
index of `obj2hmap::make_grid` is a finite value, at least 0 and strictly
below the product of the non-displacement dimensions (the length the grid
was resized to), so `grid.at (ndx)` never goes out of bounds. -/
theorem C2_cell_index_amended (sz : obj2hmap.UVec3) (hc : obj2hmap.BVec3)
    (blo bhi : Vec3) (v : Vec3)
    (hx : hc.x = false →
      blo.x ≤ v.x ∧ v.x ≤ bhi.x ∧ blo.x < bhi.x ∧ 1 ≤ sz.x ∧ sz.x < 2 ^ 32)
    (hy : hc.y = false →
      blo.y ≤ v.y ∧ v.y ≤ bhi.y ∧ blo.y < bhi.y ∧ 1 ≤ sz.y ∧ sz.y < 2 ^ 32)
    (hz : hc.z = false →
      blo.z ≤ v.z ∧ v.z ≤ bhi.z ∧ blo.z < bhi.z ∧ 1 ≤ sz.z ∧ sz.z < 2 ^ 32)
    (hdx : hc.x = true → bhi.x ≠ blo.x)
    (hdy : hc.y = true → bhi.y ≠ blo.y)
    (hdz : hc.z = true → bhi.z ≠ blo.z) :
    obj2hmap.cellIndexF sz hc blo bhi v =
      some (obj2hmap.cellIndex sz hc blo bhi v) ∧
    0 ≤ obj2hmap.cellIndex sz hc blo bhi v ∧
    obj2hmap.cellIndex sz hc blo bhi v < (obj2hmap.gridLen sz hc : ℤ) := by
  have hnex : bhi.x - blo.x ≠ 0 := by
    cases hcx : hc.x
    · obtain ⟨_, _, h3, _, _⟩ := hx hcx
      intro h0
      rw [sub_eq_zero] at h0
      exact absurd h0.symm (ne_of_lt h3)
    · intro h0
      rw [sub_eq_zero] at h0
      exact hdx hcx h0
  have hney : bhi.y - blo.y ≠ 0 := by
    cases hcy : hc.y
    · obtain ⟨_, _, h3, _, _⟩ := hy hcy
      intro h0
      rw [sub_eq_zero] at h0
      exact absurd h0.symm (ne_of_lt h3)
    · intro h0
      rw [sub_eq_zero] at h0
      exact hdy hcy h0
  have hnez : bhi.z - blo.z ≠ 0 := by
    cases hcz : hc.z
    · obtain ⟨_, _, h3, _, _⟩ := hz hcz
      intro h0
      rw [sub_eq_zero] at h0
      exact absurd h0.symm (ne_of_lt h3)
    · intro h0
      rw [sub_eq_zero] at h0
      exact hdz hcz h0
  exact ⟨cellIndexF_eq_some sz hc blo bhi v hnex hney hnez,
    (cellIndex_bounds_aux sz hc blo bhi v hx hy hz).1,
    (cellIndex_bounds_aux sz hc blo bhi v hx hy hz).2⟩

/-- C2 witness: the point `(1, 7, 1/2)` in the box `[0,1]^3` with dimensions
`(2, 5, 3)` and displacement axis Y (range `[0,1]`, nonzero width) gets a
finite cell index within `[0, gridLen) = [0, 6)`. -/
theorem C2_cell_index_amended_witness :
    obj2hmap.cellIndexF ⟨2, 5, 3⟩ ⟨false, true, false⟩ ⟨0, 0, 0⟩ ⟨1, 1, 1⟩
      ⟨1, 7, 1/2⟩ =
      some (obj2hmap.cellIndex ⟨2, 5, 3⟩ ⟨false, true, false⟩ ⟨0, 0, 0⟩
        ⟨1, 1, 1⟩ ⟨1, 7, 1/2⟩) ∧
    0 ≤ obj2hmap.cellIndex ⟨2, 5, 3⟩ ⟨false, true, false⟩ ⟨0, 0, 0⟩ ⟨1, 1, 1⟩
      ⟨1, 7, 1/2⟩ ∧
    obj2hmap.cellIndex ⟨2, 5, 3⟩ ⟨false, true, false⟩ ⟨0, 0, 0⟩ ⟨1, 1, 1⟩
      ⟨1, 7, 1/2⟩ < (obj2hmap.gridLen ⟨2, 5, 3⟩ ⟨false, true, false⟩ : ℤ) := by
  exact C2_cell_index_amended ⟨2, 5, 3⟩ ⟨false, true, false⟩ ⟨0, 0, 0⟩
    ⟨1, 1, 1⟩ ⟨1, 7, 1/2⟩ (fun _ => by norm_num)
    (fun h => by simp at h) (fun _ => by norm_num)
    (fun h => by simp at h) (fun _ => by norm_num) (fun h => by simp at h)

theorem foldl_set_length (f : Vec3 → ℕ) (val : Vec3 → ℚ) (ps : List Vec3) :
    ∀ init : List ℚ,
      (ps.foldl (fun g v => g.set (f v) (val v)) init).length = init.length := by
  induction ps with
  | nil => intro init; rfl
  | cons v rest ih =>
    intro init
    rw [List.foldl_cons, ih, List.length_set]

theorem foldl_set_getD (f : Vec3 → ℕ) (val : Vec3 → ℚ) (ps : List Vec3) :
    ∀ (init : List ℚ) (c : ℕ), (∀ v ∈ ps, f v < init.length) →
      (ps.foldl (fun g v => g.set (f v) (val v)) init).getD c 0 =
        ((ps.reverse.find? fun v => f v == c).map val).getD (init.getD c 0) := by
  induction ps with
  | nil => intro init c _; simp
  | cons v rest ih =>
    intro init c hin
    rw [List.foldl_cons,
      ih _ c fun w hw => by
        rw [List.length_set]
        exact hin w (List.mem_cons_of_mem _ hw),
      List.reverse_cons, List.find?_append]
    cases hfind : rest.reverse.find? fun w => f w == c with
    | some w => simp [hfind]
    | none =>
      rw [Option.none_or]
      by_cases hfc : f v = c
      · subst hfc
        have hone : List.find? (fun w => f w == f v) [v] = some v := by
          simp [List.find?_cons]
        rw [hone]
        rw [List.getD_eq_getElem?_getD,
          List.getElem?_set_self (hin v (List.mem_cons_self ..))]
        simp
      · have hone : List.find? (fun w => f w == c) [v] = none := by
          simp [List.find?_cons, hfc]
        rw [hone]
        rw [List.getD_eq_getElem?_getD, List.getElem?_set_ne fun h => hfc h,
          ← List.getD_eq_getElem?_getD]

/-- C4: for points within a non-degenerate bounding box (on the
non-displacement axes, with valid dimensions there, so that every write is in
bounds and `grid.at` does not throw), `obj2hmap::make_grid` produces a grid
of the resized length in which each cell holds the displacement-axis
coordinate of the last point (in sequence order, hence `find?` on the
reversed sequence) mapping to it, and exactly 0 if no point maps to it. -/
theorem C4_make_grid_last_write (sz : obj2hmap.UVec3) (hc : obj2hmap.BVec3)
    (blo bhi : Vec3) (pts : List Vec3)
    (hin : ∀ v ∈ pts,
      (hc.x = false →
        blo.x ≤ v.x ∧ v.x ≤ bhi.x ∧ blo.x < bhi.x ∧ 1 ≤ sz.x ∧ sz.x < 2 ^ 32) ∧
      (hc.y = false →
        blo.y ≤ v.y ∧ v.y ≤ bhi.y ∧ blo.y < bhi.y ∧ 1 ≤ sz.y ∧ sz.y < 2 ^ 32) ∧
      (hc.z = false →
        blo.z ≤ v.z ∧ v.z ≤ bhi.z ∧ blo.z < bhi.z ∧ 1 ≤ sz.z ∧ sz.z < 2 ^ 32)) :
    (obj2hmap.make_grid sz hc blo bhi pts).length = obj2hmap.gridLen sz hc ∧
    ∀ c < obj2hmap.gridLen sz hc,
      (obj2hmap.make_grid sz hc blo bhi pts).getD c 0 =
        ((pts.reverse.find? fun v =>
            (obj2hmap.cellIndex sz hc blo bhi v).toNat == c).map
          fun v => v.nth (obj2hmap.find_disp_axis hc)).getD 0 := by
  have hidx : ∀ v ∈ pts,
      (fun w => (obj2hmap.cellIndex sz hc blo bhi w).toNat) v <
        (List.replicate (obj2hmap.gridLen sz hc) (0 : ℚ)).length := by
    intro v hv
    dsimp only
    obtain ⟨h1, h2, h3⟩ := hin v hv
    have hb := cellIndex_bounds_aux sz hc blo bhi v h1 h2 h3
    rw [List.length_replicate]
    omega
  constructor
  · rw [obj2hmap.make_grid,
      foldl_set_length (fun w => (obj2hmap.cellIndex sz hc blo bhi w).toNat)
        (fun w => w.nth (obj2hmap.find_disp_axis hc)),
      List.length_replicate]
  · intro c hcl
    rw [obj2hmap.make_grid,
      foldl_set_getD (fun w => (obj2hmap.cellIndex sz hc blo bhi w).toNat)
        (fun w => w.nth (obj2hmap.find_disp_axis hc)) pts _ c hidx]
    congr 1
    simp [List.getD_eq_getElem?_getD, List.getElem?_replicate, hcl]

/-- C4 witness: two points mapping to the same cell 0 of a 2 x 2 grid
(displacement axis Y): the grid keeps the length 4 and cell 0 holds the Y
coordinate of the later point, as selected by `find?` on the reversed
sequence. -/
theorem C4_make_grid_last_write_witness :
    (obj2hmap.make_grid ⟨2, 1, 2⟩ ⟨false, true, false⟩ ⟨0, 0, 0⟩ ⟨1, 1, 1⟩
      [⟨0, 5, 0⟩, ⟨0, 7, 0⟩]).length =
      obj2hmap.gridLen ⟨2, 1, 2⟩ ⟨false, true, false⟩ ∧
    (obj2hmap.make_grid ⟨2, 1, 2⟩ ⟨false, true, false⟩ ⟨0, 0, 0⟩ ⟨1, 1, 1⟩
      [⟨0, 5, 0⟩, ⟨0, 7, 0⟩]).getD 0 0 =
      ((([⟨0, 5, 0⟩, ⟨0, 7, 0⟩] : List Vec3).reverse.find? fun v =>
          (obj2hmap.cellIndex ⟨2, 1, 2⟩ ⟨false, true, false⟩ ⟨0, 0, 0⟩
            ⟨1, 1, 1⟩ v).toNat == 0).map
        fun v => v.nth (obj2hmap.find_disp_axis ⟨false, true, false⟩)).getD 0 := by
  have h := C4_make_grid_last_write ⟨2, 1, 2⟩ ⟨false, true, false⟩ ⟨0, 0, 0⟩
    ⟨1, 1, 1⟩ [⟨0, 5, 0⟩, ⟨0, 7, 0⟩] ?_
  · exact ⟨h.1, h.2 0 (by norm_num [obj2hmap.gridLen])⟩
  · intro v hv
    fin_cases hv <;>
      exact ⟨fun _ => by norm_num, fun hco => by simp at hco,
        fun _ => by norm_num⟩

/-- C9 counterexample: a truncated stream zero-fills cells below the
discovered minimum.  Declaring a 2 x 2 grid over the 2-sample stream
`[1000, 20000]`, `read_hmap` discovers min 1000 and max 20000 (both strictly
discovered, `vmin < vmax`) but leaves cells 2 and 3 at 0; `make_xyz` into
the validated box low `(0,0,0)`, high `(1,1,1)` then sends cell 2 to
elevation `(0 - 1000) / 19000 < 0`, strictly below the box's low Y corner:
the lifted point is not componentwise inside the target box. -/
theorem C9_counterexample :
    (hmap2obj.read_hmap 2 2 [1000, 20000]).2.1 = 1000 ∧
    (hmap2obj.read_hmap 2 2 [1000, 20000]).2.2 = 20000 ∧
    (hmap2obj.read_hmap 2 2 [1000, 20000]).1.getD 2 0 = 0 ∧
    ¬ ((Vec3.mk 0 0 0).y ≤
        ((hmap2obj.make_xyz 2 2 ⟨0, 0, 0⟩ ⟨1, 1, 1⟩
          (hmap2obj.read_hmap 2 2 [1000, 20000]).1
          (hmap2obj.read_hmap 2 2 [1000, 20000]).2.1
          (hmap2obj.read_hmap 2 2 [1000, 20000]).2.2).getD 2
          ⟨0, 0, 0⟩).y) := by
  have hread : hmap2obj.read_hmap 2 2 [1000, 20000] =
      ([1000, 20000, 0, 0], 1000, 20000) := by
    norm_num [hmap2obj.read_hmap, hmap2obj.readLoop, List.replicate]
  refine ⟨by rw [hread], by rw [hread],
    by rw [hread]; norm_num [List.getD], ?_⟩
  rw [hread]
  norm_num [hmap2obj.make_xyz, List.getD_eq_getElem?_getD, List.getElem?_map,
    List.getElem?_range, List.getD]
